import Mathlib

/-!
Shallow embedding of the srclient protobuf wire-header code
(examples/protobuf/lib/deserializer.go and the serializer in the same
package) together with the schema-registry caching client
(schemaRegistryClient.go), and proofs of the specification claims.

Bytes are modelled as `List Nat` whose entries are byte values (< 256);
all encoders below only produce such entries.  Go's 64-bit `int` is
modelled as `Int` (with explicit `% 2^64` / `% 2^32` where Go truncates),
Go's `uint64` as `Nat` with explicit `% 2^64`.  A Go runtime panic
(out-of-range slice index, `make` with negative length) is modelled as an
explicit `panic`-like result constructor, never as a Lean default value.
-/

namespace Srclient

/-- The error values declared in the package (`errors.New` variables plus
`fmt.Errorf` results and errors coming from external libraries). -/
inductive GoErr where
  | errTypeUndefinedInSchemaRegistry
  | errUnableToDecodeValueInMessageIndexArray
  | errUnableToDecodeMessageIndexArray
  | errInvalidProtobufWireProtocolVersion
  | errMissingMessageTypeInSchema
  | errNothingToDeserialize
  | errNonProtobufSerializationTarget
  | otherError (msg : String)
  deriving DecidableEq, Repr

/-- Result of a Go call that can return a value, an error, or hit a
runtime panic. -/
inductive GoResult (α : Type) where
  | ok (val : α)
  | goError (e : GoErr)
  | panic
  deriving Repr

/-! ## encoding/binary: varints (zigzag) and big-endian uint32 -/

/-- `binary.MaxVarintLen64` -/
def MaxVarintLen64 : Nat := 10

/-- Loop body of `binary.PutUvarint`: while `x >= 0x80` emit
`byte(x) | 0x80` and shift; finally emit `byte(x)`.  The `fuel` argument
only makes the recursion structural; `fuel = x + 1` always suffices
because `x >>> 7 < x` for `x ≥ 0x80`. -/
def putUvarintGo : Nat → Nat → List Nat
  | 0, _ => []
  | fuel + 1, x =>
    if x < 0x80 then [x]
    else (x % 256 ||| 0x80) :: putUvarintGo fuel (x >>> 7)

/-- `binary.PutUvarint` (returning the written bytes; the caller's buffer
offset bookkeeping is reflected by list concatenation). -/
def putUvarint (x : Nat) : List Nat := putUvarintGo (x + 1) x

/-- `binary.PutVarint`: zigzag-encode (`ux := uint64(x) << 1; if x < 0 {
ux = ^ux }`) and then `PutUvarint`. -/
def putVarint (x : Int) : List Nat :=
  let ux : Nat := ((2 * x) % (2 ^ 64 : Int)).toNat
  putUvarint (if x < 0 then 2 ^ 64 - 1 - ux else ux)

/-- Loop of `binary.Uvarint` over the buffer: `i` is the byte counter,
`x` the accumulator, `s` the current shift; uint64 arithmetic is taken
`% 2^64`.  Returns the decoded value and the byte count (`0` if the
buffer ran out, negative on 64-bit overflow), exactly as in Go. -/
def uvarintLoop : List Nat → Nat → Nat → Nat → Nat × Int
  | [], _, _, _ => (0, 0)
  | b :: rest, i, x, s =>
    if i = MaxVarintLen64 then (0, -(i + 1 : Int))
    else if b < 0x80 then
      if i = MaxVarintLen64 - 1 ∧ b > 1 then (0, -(i + 1 : Int))
      else ((x ||| b <<< s) % 2 ^ 64, (i : Int) + 1)
    else uvarintLoop rest (i + 1) ((x ||| (b &&& 0x7f) <<< s) % 2 ^ 64) (s + 7)

/-- `binary.Uvarint` -/
def binUvarint (buf : List Nat) : Nat × Int := uvarintLoop buf 0 0 0

/-- `binary.Varint`: `Uvarint` followed by zigzag decoding
(`x := int64(ux >> 1); if ux&1 != 0 { x = ^x }`). -/
def binVarint (buf : List Nat) : Int × Int :=
  let p := binUvarint buf
  let x : Int := (p.1 >>> 1 : Nat)
  (if p.1 &&& 1 ≠ 0 then -1 - x else x, p.2)

/-- `binary.BigEndian.PutUint32` (`byte(v>>24), byte(v>>16), byte(v>>8),
byte(v)`). -/
def putUint32BE (v : Nat) : List Nat :=
  [(v >>> 24) % 256, (v >>> 16) % 256, (v >>> 8) % 256, v % 256]

/-- `binary.BigEndian.Uint32` on a 4-byte slice. -/
def beUint32 (b : List Nat) : Nat :=
  b.getD 3 0 ||| b.getD 2 0 <<< 8 ||| b.getD 1 0 <<< 16 ||| b.getD 0 0 <<< 24

/-! ## encodePayloadHeader (serializer.go) -/

/-- `encodePayloadHeader`: version byte `0`, 4 big-endian bytes of
`uint32(schemaId)`, the zigzag-varint count of message indexes, then each
index zigzag-varint encoded.  The Go code allocates
`5 + (1+len(msgIndexes))*binary.MaxVarintLen64` bytes and returns
`buf[0:length]`; the sequence of bytes actually written is the
concatenation below (the allocation-size bound is proved separately). -/
def encodePayloadHeader (schemaId : Int) (msgIndexes : List Int) : List Nat :=
  0 :: (putUint32BE ((schemaId % (2 ^ 32 : Int)).toNat)
    ++ (putVarint (msgIndexes.length : Int)
      ++ (msgIndexes.map putVarint).flatten))

/-! ## decodeHeader (deserializer.go) -/

/-- The four (named) return values of `decodeHeader`.  Go named returns
mean every exit carries all four; `err` is part of the record. -/
structure DecodeHeaderRet where
  totalBytesRead : Nat
  schemaId : Nat
  msgIndexes : List Int
  err : Option GoErr
  deriving DecidableEq, Repr

/-- The `for i := 0; i < int(arrayLen); i++` loop of `decodeHeader`:
reads `n` further varints starting at offset `total`.  On a decode
failure it returns the offset reached so far and the not-yet-filled
entries of the `make([]int, arrayLen)` array as zeros, exactly like the
Go code. -/
def decodeIndexLoop (bytes : List Nat) (total : Nat) : Nat → Nat × List Int × Option GoErr
  | 0 => (total, [], none)
  | m + 1 =>
    let p := binVarint (bytes.drop total)
    if p.2 ≤ 0 then
      (total, List.replicate (m + 1) (0 : Int),
        some .errUnableToDecodeValueInMessageIndexArray)
    else
      let q := decodeIndexLoop bytes (total + p.2.toNat) m
      (q.1, p.1 :: q.2.1, q.2.2)

/-- `decodeHeader`.  `none` models a Go runtime panic: `bytes[0]` on an
empty slice, `bytes[1:5]` on a slice shorter than 5 bytes, and
`make([]int, arrayLen)` with a negative decoded length.  Note that the
source's `if arrayLen == 0 { msgIndexes = append(msgIndexes, 0) }` is
immediately overwritten by `msgIndexes = make([]int, arrayLen)`, so it
has no effect on the returned record; the dead assignment is kept here as
`_deadZeroPath`. -/
def decodeHeader (bytes : List Nat) : Option DecodeHeaderRet :=
  match bytes with
  | [] => none
  | b0 :: _ =>
    if b0 ≠ 0 then
      some ⟨0, 0, [], some .errInvalidProtobufWireProtocolVersion⟩
    else if bytes.length < 5 then none
    else
      let schemaId := beUint32 ((bytes.drop 1).take 4)
      let p := binVarint (bytes.drop 5)
      let arrayLen := p.1
      let bytesRead := p.2
      if bytesRead ≤ 0 then
        some ⟨0, schemaId, [], some .errUnableToDecodeMessageIndexArray⟩
      else
        let _deadZeroPath : List Int := if arrayLen = 0 then [0] else []
        let totalBytesRead := 5 + bytesRead.toNat
        if arrayLen < 0 then none
        else
          let q := decodeIndexLoop bytes totalBytesRead arrayLen.toNat
          some ⟨q.1, schemaId, q.2.1, q.2.2⟩

/-! ## Descriptor model (jhump/protoreflect `desc` view used by the code)

A protobuf message declaration is identified by its nested-message
subtree (`MsgTree`); `resolveDescriptorByIndexes` only ever inspects
`GetMessageTypes` / `GetNestedMessageTypes`, so this captures everything
it can observe. -/

inductive MsgTree where
  | node (nestedMessageTypes : List MsgTree)

/-- A `desc.Descriptor` dynamic value as the type switch in
`resolveDescriptorByIndexes` sees it: a `*desc.FileDescriptor`, a
`*desc.MessageDescriptor`, or any other descriptor kind (enum, service,
field, …) which falls into the `default` branch. -/
inductive GoDescriptor where
  | fileDescriptor (messageTypes : List MsgTree)
  | messageDescriptor (m : MsgTree)
  | otherDescriptor

/-- `resolveDescriptorByIndexes`.  The file case bounds-checks only
`index >= len(GetMessageTypes())`; a negative index reaches
`GetMessageTypes()[index]` and panics.  The message case has no bounds
check at all: `GetNestedMessageTypes()[index]` panics whenever `index`
is negative or not less than the number of nested messages. -/
def resolveDescriptorByIndexes : List Int → GoDescriptor → GoResult GoDescriptor
  | [], descriptor => .ok descriptor
  | index :: rest, .fileDescriptor msgs =>
    if (msgs.length : Int) ≤ index then
      .goError .errTypeUndefinedInSchemaRegistry
    else if index < 0 then .panic
    else
      match msgs.get? index.toNat with
      | some m => resolveDescriptorByIndexes rest (.messageDescriptor m)
      | none => .panic
  | index :: rest, .messageDescriptor (.node nested) =>
    if index < 0 then .panic
    else
      match nested.get? index.toNat with
      | none => .panic
      | some m =>
        if rest.length > 0 then
          resolveDescriptorByIndexes rest (.messageDescriptor m)
        else .ok (.messageDescriptor m)
  | _ :: _, .otherDescriptor => .goError .errTypeUndefinedInSchemaRegistry

/-! ## computeMessageIndexes (serializer.go)

`computeMessageIndexes` walks `descriptor.Parent()` upward, so a message
descriptor is modelled as its chain of ancestors with the positional
`Index()` at each level (`parent = none` means the parent is the
`FileDescriptor`). -/

inductive MsgDesc where
  | mk (parent : Option MsgDesc) (index : Nat)

/-- `computeMessageIndexes(descriptor, count)`: at the file level it does
`msgIndexes := make([]int, count+1); msgIndexes[0] = index; return
msgIndexes[0:1]`; below it recurses on the parent and appends `index`. -/
def computeMessageIndexes : MsgDesc → Nat → List Int
  | .mk none index, count =>
    (((List.replicate (count + 1) (0 : Int)).set 0 (index : Int)).take 1)
  | .mk (some parent) index, count =>
    computeMessageIndexes parent (count + 1) ++ [(index : Int)]

/-- Addressing a message declaration inside a file's message-tree list by
a path of sibling indexes, producing the parent-chain descriptor this
message would present to `computeMessageIndexes`.  (Specification-side
addressing function used to state what the computed path means.) -/
def mkDesc (parent : Option MsgDesc) (siblings : List MsgTree) :
    List Nat → Option MsgDesc
  | [] => none
  | i :: rest =>
    match siblings.get? i with
    | none => none
    | some (.node nested) =>
      match rest with
      | [] => some (.mk parent i)
      | _ :: _ => mkDesc (some (.mk parent i)) nested rest

/-- Specification-side reading of a parent chain: the sibling index at
each depth, topmost (file-level) first. -/
def upPath : MsgDesc → List Int
  | .mk none index => [(index : Int)]
  | .mk (some p) index => upPath p ++ [(index : Int)]

/-- `upPath` lifted to the optional parent of a message. -/
def optUpPath : Option MsgDesc → List Int
  | none => []
  | some p => upPath p

/-! ## Header cache and serializer (serializer.go)

`HeaderCache` is a two-level map `schemaId -> messageFullName -> header`;
`Get`/`Put` observe it only through lookups keyed by both levels, so it
is modelled as the corresponding function map (`Get`'s lazy allocation of
the outer map is observationally the empty map). -/

def HeaderCacheM := Int → String → Option (List Nat)

def emptyHeaderCache : HeaderCacheM := fun _ _ => none

/-- `HeaderCache.Get` keyed by `schemaId` and
`msg.ProtoReflect().Descriptor().FullName()`. -/
def headerCacheGet (c : HeaderCacheM) (schemaId : Int) (fullName : String) :
    Option (List Nat) := c schemaId fullName

/-- `HeaderCache.Put` -/
def headerCachePut (c : HeaderCacheM) (schemaId : Int) (fullName : String)
    (header : List Nat) : HeaderCacheM :=
  fun i n => if i = schemaId ∧ n = fullName then some header else c i n

/-- A `proto.Message` as the serializer observes it: its descriptor
parent chain (for `computeMessageIndexes`) and its full name (the cache
key). -/
structure PMsg where
  descriptor : MsgDesc
  fullName : String

/-- The interface environment of a `ProtobufSerializer`: the
`SchemaResolver` (both methods) and the marshal/initialize functions the
constructor installed. -/
structure SerializerCfg where
  resolveSchemaId : String → Except GoErr Int
  resolveProtoSchema : Int → Except GoErr GoDescriptor
  marshal : List Nat → PMsg → Except GoErr (List Nat)
  initFn : Option (PMsg → PMsg)

/-- `generateHeader`: cache lookup, else compute the index path, fetch
and resolve the schema descriptor, encode the header and store it in the
cache.  Returns the result together with the (possibly updated) cache. -/
def generateHeader (ps : SerializerCfg) (cache : HeaderCacheM)
    (schemaId : Int) (msg : PMsg) : GoResult (List Nat) × HeaderCacheM :=
  match headerCacheGet cache schemaId msg.fullName with
  | some header => (.ok header, cache)
  | none =>
    let msgIndexes := computeMessageIndexes msg.descriptor 0
    match ps.resolveProtoSchema schemaId with
    | .error e => (.goError e, cache)
    | .ok fileDescriptor =>
      match resolveDescriptorByIndexes msgIndexes fileDescriptor with
      | .goError e => (.goError e, cache)
      | .panic => (.panic, cache)
      | .ok _ =>
        let buf := encodePayloadHeader schemaId msgIndexes
        (.ok buf, headerCachePut cache schemaId msg.fullName buf)

/-- The dynamic value passed to `Serialize` as `thing interface{}`:
Go `nil`, a `proto.Message`, or any other non-nil value. -/
inductive SerTarget where
  | goNil
  | protoMsg (m : PMsg)
  | nonProto

/-- `ProtobufSerializer.Serialize`.  `ok none` models the `nil, nil`
return for a nil message.  (The `ps == nil` / `ps.schemaResolver == nil`
guards concern Go nil receivers, which have no counterpart for a Lean
structure value and are omitted.) -/
def Serialize (ps : SerializerCfg) (cache : HeaderCacheM) (topic : String)
    (thing : SerTarget) : GoResult (Option (List Nat)) × HeaderCacheM :=
  match thing with
  | .goNil => (.ok none, cache)
  | .nonProto => (.goError .errNonProtobufSerializationTarget, cache)
  | .protoMsg m =>
    match ps.resolveSchemaId topic with
    | .error e => (.goError e, cache)
    | .ok schemaId =>
      let m := match ps.initFn with
        | some f => f m
        | none => m
      match generateHeader ps cache schemaId m with
      | (.ok header, cache') =>
        match ps.marshal header m with
        | .ok bytes => (.ok (some bytes), cache')
        | .error e => (.goError e, cache')
      | (.goError e, cache') => (.goError e, cache')
      | (.panic, cache') => (.panic, cache')

/-! ## Deserialize (deserializer.go) -/

/-- The interface environment of a `ProtobufDeserializer`: the
`ProtobufResolver` and the unmarshal function. -/
structure DeserializerCfg where
  resolveProtobuf : Nat → List Int → Except GoErr PMsg
  unmarshal : List Nat → PMsg → Except GoErr PMsg

/-- `ProtobufDeserializer.Deserialize`.  The input is `none` for a Go
`nil` slice.  NOTE (faithful to the source): the `err` returned by
`decodeHeader` is discarded — the code immediately shadows it with
`pb, err := ps.protobufResolver.ResolveProtobuf(...)` without checking
it, so decoding continues with the partial header values. -/
def Deserialize (ps : DeserializerCfg) (bytes : Option (List Nat)) :
    GoResult PMsg :=
  match bytes with
  | none => .goError .errNothingToDeserialize
  | some bs =>
    match decodeHeader bs with
    | none => .panic
    | some r =>
      match ps.resolveProtobuf r.schemaId r.msgIndexes with
      | .error e => .goError e
      | .ok pb =>
        match ps.unmarshal (bs.drop r.totalBytesRead) pb with
        | .error e => .goError e
        | .ok pb' => .ok pb'

/-! ## SchemaRegistryClient caching (schemaRegistryClient.go) -/

/-- The fields of `Schema` that `GetSchema` constructs. -/
structure Schema where
  id : Int
  schema : String
  version : Int
  schemaType : Option String
  codec : Option Unit
  deriving DecidableEq, Repr

/-- The fields of the `schemaResponse` JSON the fetch produces. -/
structure SchemaResponse where
  schema : String
  version : Int
  schemaType : Option String
  deriving DecidableEq, Repr

/-- Mutable state of a `SchemaRegistryClient` relevant to caching. -/
structure SRClientState where
  cachingEnabled : Bool
  codecCreationEnabled : Bool
  idSchemaCache : Int → Option Schema
  subjectSchemaCache : String → Option Schema

/-- The external world of the client: `httpRequest` + `json.Unmarshal`
for `GET /schemas/ids/{id}` collapsed into one oracle, and goavro codec
creation as another. -/
structure SROracle where
  fetchSchemaById : Int → Except GoErr SchemaResponse
  codecForSchema : String → Except GoErr Unit

/-- The fetch-and-store path of `GetSchema` (everything after the cache
check).  The third component counts HTTP requests issued (always exactly
one here). -/
def getSchemaFetch (o : SROracle) (c : SRClientState) (schemaID : Int) :
    Except GoErr Schema × SRClientState × Nat :=
  match o.fetchSchemaById schemaID with
  | .error e => (.error e, c, 1)
  | .ok resp =>
    match (if c.codecCreationEnabled then
        (o.codecForSchema resp.schema).map some
      else .ok none) with
    | .error e => (.error e, c, 1)
    | .ok codec =>
      let schema : Schema :=
        ⟨schemaID, resp.schema, resp.version, resp.schemaType, codec⟩
      if c.cachingEnabled then
        (.ok schema,
          { c with idSchemaCache :=
              fun i => if i = schemaID then some schema else c.idSchemaCache i },
          1)
      else (.ok schema, c, 1)

/-- `SchemaRegistryClient.GetSchema` with an explicit HTTP-request count
as the third component. -/
def GetSchema (o : SROracle) (c : SRClientState) (schemaID : Int) :
    Except GoErr Schema × SRClientState × Nat :=
  if c.cachingEnabled then
    match c.idSchemaCache schemaID with
    | some cachedSchema => (.ok cachedSchema, c, 0)
    | none => getSchemaFetch o c schemaID
  else getSchemaFetch o c schemaID

/-- `SchemaRegistryClient.ResetCache`: replaces both caches with fresh
empty maps. -/
def ResetCache (c : SRClientState) : SRClientState :=
  { c with idSchemaCache := fun _ => none, subjectSchemaCache := fun _ => none }

/-! ## Concrete instances (test vectors and witness environments) -/

/-- The descriptor tree of the schema in `deserializer_test.go`:
`MessageA` nests `MessageB` (nesting `MessageC`), `MessageD`, and
`MessageE` (nesting `MessageF` and `MessageG`); `MessageH` nests
`MessageI`. -/
def testMessageA : MsgTree :=
  .node [.node [.node []], .node [], .node [.node [], .node []]]

def testMessageH : MsgTree := .node [.node []]

def testFileDescriptor : GoDescriptor :=
  .fileDescriptor [testMessageA, testMessageH]

/-- A trivial message value (file-level first message). -/
def dummyMsg : PMsg := ⟨.mk none 0, "test.M"⟩

/-- Serializer environment whose registry contains a single top-level
message and always reports schema id 1. -/
def c8ps : SerializerCfg :=
  ⟨fun _ => .ok 1, fun _ => .ok (.fileDescriptor [.node []]),
    fun h _ => .ok h, none⟩

def c8hdr : List Nat := encodePayloadHeader 1 [0]

def c8cache : HeaderCacheM := headerCachePut emptyHeaderCache 1 "test.M" c8hdr

def c9schema : Schema := ⟨7, "s", 3, none, none⟩

def c9oracle : SROracle := ⟨fun _ => .ok ⟨"s", 3, none⟩, fun _ => .ok ()⟩

/-- Client whose id-cache already holds schema 7. -/
def c9hit : SRClientState :=
  ⟨true, false, fun i => if i = 7 then some c9schema else none, fun _ => none⟩

/-- Client with empty caches and caching enabled. -/
def c9miss : SRClientState := ⟨true, false, fun _ => none, fun _ => none⟩

/-! ## Varint lemmas -/

/-- Bitwise-or of a value below `2^s` with a left-shifted value is plain
addition. -/
lemma lor_shiftLeft_eq_add {x : Nat} (y s : Nat) (h : x < 2 ^ s) :
    x ||| y <<< s = x + y * 2 ^ s := by
  calc x ||| y <<< s = y * 2 ^ s ||| x := by rw [Nat.shiftLeft_eq, Nat.or_comm]
    _ = 2 ^ s * y ||| x := by rw [Nat.mul_comm]
    _ = 2 ^ s * y + x := (Nat.mul_add_lt_is_or h y).symm
    _ = x + y * 2 ^ s := by ring

lemma putUvarintGo_congr : ∀ y f g, y < f → y < g →
    putUvarintGo f y = putUvarintGo g y := by
  intro y
  induction y using Nat.strong_induction_on with
  | _ y ih =>
    intro f g hf hg
    match f, g with
    | f + 1, g + 1 =>
      simp only [putUvarintGo]
      by_cases h : y < 0x80
      · simp [h]
      · have hy : y >>> 7 < y := by
          rw [Nat.shiftRight_eq_div_pow]
          exact Nat.div_lt_self (by omega) (by norm_num)
        simp only [h, if_false]
        rw [ih (y >>> 7) hy f g (by omega) (by omega)]

/-- The defining equation of `PutUvarint`'s loop, free of the fuel
bookkeeping. -/
lemma putUvarint_eq (x : Nat) : putUvarint x =
    if x < 0x80 then [x] else (x % 256 ||| 0x80) :: putUvarint (x >>> 7) := by
  show putUvarintGo (x + 1) x = _
  simp only [putUvarintGo]
  by_cases h : x < 0x80
  · simp [h]
  · have hx : x >>> 7 < x := by
      rw [Nat.shiftRight_eq_div_pow]
      exact Nat.div_lt_self (by omega) (by norm_num)
    simp only [h, if_false]
    rw [putUvarintGo_congr (x >>> 7) x (x >>> 7 + 1) hx (Nat.lt_succ_self _)]
    rfl

lemma putUvarint_length_pos (u : Nat) : 0 < (putUvarint u).length := by
  rw [putUvarint_eq]
  split <;> simp

lemma putUvarint_length_le : ∀ k u, 1 ≤ k → u < 2 ^ (7 * k) →
    (putUvarint u).length ≤ k := by
  intro k
  induction k with
  | zero => omega
  | succ k ih =>
    intro u _ hu
    rw [putUvarint_eq]
    by_cases h : u < 0x80
    · simp [h]
    · have hk : 1 ≤ k := by
        by_contra hk0
        have : k = 0 := by omega
        subst this
        simp at hu
        omega
      have h7 : u >>> 7 < 2 ^ (7 * k) := by
        rw [Nat.shiftRight_eq_div_pow]
        rw [Nat.div_lt_iff_lt_mul (by norm_num : 0 < (2:Nat) ^ 7)]
        calc u < 2 ^ (7 * (k + 1)) := hu
          _ = 2 ^ (7 * k) * 2 ^ 7 := by rw [← pow_add]; ring_nf
      simp only [h, if_false, List.length_cons]
      have := ih (u >>> 7) hk h7
      omega

lemma putVarint_length_le (x : Int) : (putVarint x).length ≤ MaxVarintLen64 := by
  unfold putVarint
  apply putUvarint_length_le 10 _ (by norm_num)
  have hm : (0 : Int) ≤ (2 * x) % (2 ^ 64 : Int) := Int.emod_nonneg _ (by norm_num)
  have hm' : (2 * x) % (2 ^ 64 : Int) < (2 ^ 64 : Int) :=
    Int.emod_lt_of_pos _ (by norm_num)
  have ht : ((2 * x) % (2 ^ 64 : Int)).toNat < 2 ^ 64 := by omega
  split <;> norm_num <;> omega

lemma putVarint_length_pos (x : Int) : 0 < (putVarint x).length :=
  putUvarint_length_pos _

/-- Main loop invariant: running `Uvarint`'s loop on the encoding of `u`
(with anything appended) from byte counter `i` decodes `u` shifted into
place. -/
lemma uvarintLoop_putUvarint : ∀ u i x (rest : List Nat),
    u < 2 ^ (64 - 7 * i) → i ≤ 9 → x < 2 ^ (7 * i) →
    uvarintLoop (putUvarint u ++ rest) i x (7 * i)
      = (x + u * 2 ^ (7 * i), (i : Int) + (putUvarint u).length) := by
  intro u
  induction u using Nat.strong_induction_on with
  | _ u ih =>
    intro i x rest hu hi hx
    rw [putUvarint_eq]
    by_cases h : u < 0x80
    · -- final byte: the loop returns `x | u<<s`
      simp only [if_pos h, List.cons_append, List.nil_append, uvarintLoop,
        MaxVarintLen64]
      have hi10 : ¬ i = 10 := by omega
      have hb : u < 0x80 := h
      have hnot91 : ¬ (i = 10 - 1 ∧ u > 1) := by
        rintro ⟨h9, hu1⟩
        subst h9
        norm_num at hu
        omega
      rw [if_neg hi10, if_neg hnot91]
      have hxor : x ||| u <<< (7 * i) = x + u * 2 ^ (7 * i) :=
        lor_shiftLeft_eq_add u (7 * i) hx
      have hsum : x + u * 2 ^ (7 * i) < 2 ^ 64 := by
        have h3 : (2:Nat) ^ (64 - 7 * i) * 2 ^ (7 * i) = 2 ^ 64 := by
          rw [← pow_add]
          congr 1
          omega
        have h2 : (u + 1) * 2 ^ (7 * i) ≤ 2 ^ (64 - 7 * i) * 2 ^ (7 * i) :=
          Nat.mul_le_mul_right _ (by omega)
        have h1 : (u + 1) * 2 ^ (7 * i) = u * 2 ^ (7 * i) + 2 ^ (7 * i) := by ring
        omega
      rw [hxor, Nat.mod_eq_of_lt hsum]
      simp [List.length_cons]
    · -- continuation byte
      have hu128 : 128 ≤ u := by omega
      have hi8 : i ≤ 8 := by
        by_contra h9
        have : i = 9 := by omega
        subst this
        norm_num at hu
        omega
      have hb : ¬ (u % 256 ||| 0x80) < 0x80 := by
        have : (2:Nat) ^ 7 ≤ u % 256 ||| 0x80 := by
          apply Nat.testBit_implies_ge
          simp only [Nat.testBit_or, Bool.or_eq_true]
          exact Or.inr (by decide)
        intro hlt
        norm_num at this
        omega
      have hmask : (u % 256 ||| 0x80) &&& 0x7f = u % 128 := by
        have h127 : (0x7f : Nat) = 2 ^ 7 - 1 := rfl
        rw [Nat.and_distrib_right, h127, Nat.and_pow_two_sub_one_eq_mod,
          Nat.and_pow_two_sub_one_eq_mod]
        norm_num [Nat.mod_mod_of_dvd]
      simp only [if_neg h, List.cons_append, uvarintLoop, MaxVarintLen64]
      have hi10 : ¬ i = 10 := by omega
      rw [if_neg hi10, if_neg hb, hmask]
      have hlow : x ||| (u % 128) <<< (7 * i) = x + u % 128 * 2 ^ (7 * i) :=
        lor_shiftLeft_eq_add _ _ hx
      have hx' : x + u % 128 * 2 ^ (7 * i) < 2 ^ (7 * (i + 1)) := by
        have hmod : u % 128 * 2 ^ (7 * i) ≤ 127 * 2 ^ (7 * i) :=
          Nat.mul_le_mul_right _ (by omega)
        have h2 : (128:Nat) * 2 ^ (7 * i) = 2 ^ (7 * (i + 1)) := by
          rw [show 7 * (i + 1) = 7 + 7 * i by ring, pow_add]
          norm_num
        omega
      have hlt64 : x + u % 128 * 2 ^ (7 * i) < 2 ^ 64 := by
        have : (2:Nat) ^ (7 * (i + 1)) ≤ 2 ^ 64 :=
          Nat.pow_le_pow_right (by norm_num) (by omega)
        omega
      rw [hlow, Nat.mod_eq_of_lt hlt64]
      have hrec : u >>> 7 < 2 ^ (64 - 7 * (i + 1)) := by
        rw [Nat.shiftRight_eq_div_pow]
        rw [Nat.div_lt_iff_lt_mul (by norm_num : 0 < (2:Nat) ^ 7)]
        calc u < 2 ^ (64 - 7 * i) := hu
          _ ≤ 2 ^ (64 - 7 * (i + 1)) * 2 ^ 7 := by
            rw [← pow_add]
            apply Nat.pow_le_pow_right (by norm_num)
            omega
      have hdec : u >>> 7 < u := by
        rw [Nat.shiftRight_eq_div_pow]
        exact Nat.div_lt_self (by omega) (by norm_num)
      have hloop := ih (u >>> 7) hdec (i + 1)
        (x + u % 128 * 2 ^ (7 * i)) rest hrec (by omega) hx'
      have hs : 7 * i + 7 = 7 * (i + 1) := by ring
      rw [hs, hloop]
      have hval : x + u % 128 * 2 ^ (7 * i) + u >>> 7 * 2 ^ (7 * (i + 1))
          = x + u * 2 ^ (7 * i) := by
        rw [Nat.shiftRight_eq_div_pow]
        have h2 : (2:Nat) ^ (7 * (i + 1)) = 2 ^ (7 * i) * 2 ^ 7 := by
          rw [← pow_add]
          congr 1
        have hu' : u = 2 ^ 7 * (u / 2 ^ 7) + u % 2 ^ 7 := (Nat.div_add_mod u (2 ^ 7)).symm
        rw [h2]
        conv_rhs => rw [hu']
        norm_num
        ring_nf
      rw [hval]
      simp only [List.length_cons, Prod.mk.injEq, true_and]
      push_cast
      ring

lemma binUvarint_putUvarint (u : Nat) (rest : List Nat) (h : u < 2 ^ 64) :
    binUvarint (putUvarint u ++ rest) = (u, ((putUvarint u).length : Int)) := by
  have hl := uvarintLoop_putUvarint u 0 0 rest (by simpa using h) (by norm_num)
    (by norm_num)
  simpa [binUvarint] using hl

lemma putVarint_nonneg (v : Int) (h0 : 0 ≤ v) (h : v < 2 ^ 63) :
    putVarint v = putUvarint ((2 * v).toNat) := by
  unfold putVarint
  have hp : (2:Int) ^ 64 = 2 * 2 ^ 63 := by norm_num
  rw [Int.emod_eq_of_lt (by omega) (by omega)]
  simp only [if_neg (show ¬ v < 0 by omega)]

lemma binVarint_putVarint (v : Int) (rest : List Nat) (h0 : 0 ≤ v)
    (h : v < 2 ^ 63) :
    binVarint (putVarint v ++ rest) = (v, ((putVarint v).length : Int)) := by
  rw [putVarint_nonneg v h0 h]
  have hp : (2:Int) ^ 64 = 2 * 2 ^ 63 := by norm_num
  have hU : (2 * v).toNat < 2 ^ 64 := by
    have : ((2:Nat) ^ 64 : Int) = (2:Int) ^ 64 := by norm_num
    omega
  unfold binVarint
  rw [binUvarint_putUvarint _ rest hU]
  have h2 : (2 * v).toNat = 2 * v.toNat := by omega
  have heven : ¬ (2 * v).toNat &&& 1 ≠ 0 := by
    rw [Nat.and_one_is_mod]
    omega
  simp only [heven, if_false, if_neg heven]
  have hshift : (2 * v).toNat >>> 1 = v.toNat := by
    rw [Nat.shiftRight_eq_div_pow]
    omega
  rw [hshift]
  simp only [Prod.mk.injEq]
  exact ⟨by omega, trivial⟩

lemma beUint32_putUint32BE (v : Nat) (h : v < 2 ^ 32) :
    beUint32 (putUint32BE v) = v := by
  unfold beUint32 putUint32BE
  simp only [List.getD_cons_zero, List.getD_cons_succ]
  have e1 := lor_shiftLeft_eq_add (x := v % 256) ((v >>> 8) % 256) 8
    (by omega)
  have b1lt : v % 256 ||| ((v >>> 8) % 256) <<< 8 < 2 ^ 16 := by
    rw [e1]
    have : (v >>> 8) % 256 ≤ 255 := by omega
    have : (2:Nat) ^ 8 = 256 := by norm_num
    have : (2:Nat) ^ 16 = 65536 := by norm_num
    omega
  have e2 := lor_shiftLeft_eq_add (x := v % 256 ||| ((v >>> 8) % 256) <<< 8)
    ((v >>> 16) % 256) 16 b1lt
  have b2lt : (v % 256 ||| ((v >>> 8) % 256) <<< 8) |||
      ((v >>> 16) % 256) <<< 16 < 2 ^ 24 := by
    rw [e2, e1]
    have : (v >>> 8) % 256 ≤ 255 := by omega
    have : (v >>> 16) % 256 ≤ 255 := by omega
    have : (2:Nat) ^ 8 = 256 := by norm_num
    have : (2:Nat) ^ 16 = 65536 := by norm_num
    have : (2:Nat) ^ 24 = 16777216 := by norm_num
    omega
  have e3 := lor_shiftLeft_eq_add
    (x := (v % 256 ||| ((v >>> 8) % 256) <<< 8) ||| ((v >>> 16) % 256) <<< 16)
    ((v >>> 24) % 256) 24 b2lt
  rw [e3, e2, e1]
  rw [Nat.shiftRight_eq_div_pow, Nat.shiftRight_eq_div_pow,
    Nat.shiftRight_eq_div_pow]
  have h8 : (2:Nat) ^ 8 = 256 := by norm_num
  have h16 : (2:Nat) ^ 16 = 65536 := by norm_num
  have h24 : (2:Nat) ^ 24 = 16777216 := by norm_num
  have h32 : (2:Nat) ^ 32 = 4294967296 := by norm_num
  rw [h8, h16, h24]
  omega

lemma decodeIndexLoop_spec : ∀ (P : List Int) (pre : List Nat),
    (∀ x ∈ P, 0 ≤ x ∧ x < 2 ^ 63) →
    decodeIndexLoop (pre ++ (P.map putVarint).flatten) pre.length P.length
      = (pre.length + ((P.map putVarint).flatten).length, P, none) := by
  intro P
  induction P with
  | nil =>
    intro pre _
    simp [decodeIndexLoop]
  | cons v es ih =>
    intro pre h
    have hv := h v (by simp)
    simp only [List.map_cons, List.flatten_cons, List.length_cons]
    rw [decodeIndexLoop]
    rw [← List.append_assoc, show pre ++ putVarint v ++ (es.map putVarint).flatten
        = pre ++ (putVarint v ++ (es.map putVarint).flatten) from List.append_assoc ..]
    rw [List.drop_left]
    rw [binVarint_putVarint v _ hv.1 hv.2]
    have hpos : (0:Int) < ((putVarint v).length : Int) := by
      exact_mod_cast putVarint_length_pos v
    rw [if_neg (by omega)]
    have htn : (((putVarint v).length : Int)).toNat = (putVarint v).length := by
      omega
    rw [htn]
    have hpre : pre.length + (putVarint v).length = (pre ++ putVarint v).length := by
      simp
    rw [hpre, ← List.append_assoc]
    rw [ih (pre ++ putVarint v) (fun x hx => h x (by simp [hx]))]
    simp only [Prod.mk.injEq, List.length_append]
    exact ⟨by omega, trivial⟩

/-- Generic round-trip: decoding an encoded header recovers the schema id
and path exactly and consumes exactly the encoded length. -/
lemma decodeHeader_encode (S : Nat) (P : List Int)
    (hS : S < 2 ^ 32) (hlen : P.length < 2 ^ 63)
    (hel : ∀ x ∈ P, 0 ≤ x ∧ x < 2 ^ 63) :
    decodeHeader (encodePayloadHeader (S : Int) P)
      = some ⟨(encodePayloadHeader (S : Int) P).length, S, P, none⟩ := by
  have h2pow : ((2:Nat) ^ 32 : Int) = (2:Int) ^ 32 := by norm_num
  have hS32 : (((S : Int)) % ((2:Int) ^ 32)).toNat = S := by omega
  have henc : encodePayloadHeader (S : Int) P
      = 0 :: (putUint32BE S ++ (putVarint ((P.length : Int))
          ++ (P.map putVarint).flatten)) := by
    unfold encodePayloadHeader
    rw [hS32]
  rw [henc]
  have hBpos := putVarint_length_pos ((P.length : Int))
  have hA4 : (4:Nat) = (putUint32BE S).length := by simp [putUint32BE]
  have hlen' : (0 :: (putUint32BE S ++ (putVarint ((P.length : Int))
      ++ (P.map putVarint).flatten))).length
      = 5 + (putVarint ((P.length : Int))).length
        + ((P.map putVarint).flatten).length := by
    simp [putUint32BE]
    omega
  have htake : ((putUint32BE S ++ (putVarint ((P.length : Int))
      ++ (P.map putVarint).flatten))).take 4 = putUint32BE S := by
    rw [hA4, List.take_left]
  have hdrop5 : (0 :: (putUint32BE S ++ (putVarint ((P.length : Int))
      ++ (P.map putVarint).flatten))).drop 5
      = putVarint ((P.length : Int)) ++ (P.map putVarint).flatten := by
    show ((putUint32BE S ++ (putVarint ((P.length : Int))
      ++ (P.map putVarint).flatten))).drop 4 = _
    rw [hA4, List.drop_left]
  have hbin : binVarint (putVarint ((P.length : Int))
      ++ (P.map putVarint).flatten)
      = ((P.length : Int), ((putVarint ((P.length : Int))).length : Int)) :=
    binVarint_putVarint _ _ (by positivity) (by exact_mod_cast hlen)
  simp only [decodeHeader]
  rw [if_neg (show ¬ ((0 :: (putUint32BE S ++ (putVarint ((P.length : Int))
      ++ (P.map putVarint).flatten))).length < 5) by rw [hlen']; omega)]
  simp only [List.drop_succ_cons, List.drop_zero, htake, hdrop5, hbin]
  rw [beUint32_putUint32BE S hS]
  rw [if_neg (show ¬ (((putVarint ((P.length : Int))).length : Int) ≤ 0) by
    exact_mod_cast Nat.not_le.mpr hBpos)]
  rw [if_neg (show ¬ ((P.length : Int) < 0) by omega)]
  have htn1 : (((putVarint ((P.length : Int))).length : Int)).toNat
      = (putVarint ((P.length : Int))).length := by omega
  have htn2 : (((P.length : Nat) : Int)).toNat = P.length := by omega
  rw [htn1, htn2]
  have hassoc : 0 :: (putUint32BE S ++ (putVarint ((P.length : Int))
      ++ (P.map putVarint).flatten))
      = (0 :: (putUint32BE S ++ putVarint ((P.length : Int))))
        ++ (P.map putVarint).flatten := by
    simp
  have hprelen : 5 + (putVarint ((P.length : Int))).length
      = (0 :: (putUint32BE S ++ putVarint ((P.length : Int)))).length := by
    simp [putUint32BE]
    omega
  rw [hassoc, hprelen,
    decodeIndexLoop_spec P (0 :: (putUint32BE S ++ putVarint ((P.length : Int)))) hel]
  simp only [Option.some.injEq, DecodeHeaderRet.mk.injEq, List.length_append,
    List.length_cons, and_true, true_and]
  have hfin : ((0 :: (putUint32BE S ++ putVarint ((P.length : Int))))
      ++ (P.map putVarint).flatten).length
      = (0 :: (putUint32BE S ++ putVarint ((P.length : Int)))).length
        + ((P.map putVarint).flatten).length := List.length_append _ _
  simp

/-! ## computeMessageIndexes lemmas -/

lemma upPath_mk (parent : Option MsgDesc) (i : Nat) :
    upPath (.mk parent i) = optUpPath parent ++ [(i : Int)] := by
  cases parent <;> simp [upPath, optUpPath]

lemma computeMessageIndexes_eq_upPath :
    ∀ (d : MsgDesc) (count : Nat), computeMessageIndexes d count = upPath d
  | .mk none index, count => by
    simp [computeMessageIndexes, upPath, List.replicate_succ]
  | .mk (some p) index, count => by
    rw [computeMessageIndexes, upPath,
      computeMessageIndexes_eq_upPath p (count + 1)]

lemma mkDesc_upPath (path : List Nat) :
    ∀ (parent : Option MsgDesc) (siblings : List MsgTree) (d : MsgDesc),
      mkDesc parent siblings path = some d →
      upPath d = optUpPath parent ++ path.map (fun i => (i : Int)) := by
  induction path with
  | nil =>
    intro parent siblings d h
    simp [mkDesc] at h
  | cons i rest ih =>
    intro parent siblings d h
    simp only [mkDesc] at h
    cases hg : siblings.get? i with
    | none => rw [hg] at h; simp at h
    | some t =>
      cases t with
      | node nested =>
        rw [hg] at h
        cases rest with
        | nil =>
          simp only [Option.some.injEq] at h
          subst h
          rw [upPath_mk]
          simp
        | cons r rs =>
          have hrec := ih (some (.mk parent i)) nested d h
          rw [hrec]
          simp [optUpPath, upPath_mk]

example : Srclient.putUvarint 300 = [0xAC, 0x02] := by decide
example : Srclient.binUvarint [0xAC, 0x02] = (300, 2) := by decide
example : Srclient.putVarint 1 = [2] := by decide
example : Srclient.putVarint (-1) = [1] := by decide
example : Srclient.binVarint [1] = (-1, 1) := by decide
example :
    Srclient.encodePayloadHeader 42 [] = [0, 0, 0, 0, 42, 0] := by decide
example :
    Srclient.decodeHeader (Srclient.encodePayloadHeader 42 []) =
      some ⟨6, 42, [], none⟩ := by decide
example :
    Srclient.decodeHeader (Srclient.encodePayloadHeader 42 [0, 2, 1]) =
      some ⟨9, 42, [0, 2, 1], none⟩ := by decide
example : Srclient.decodeHeader [1] =
    some ⟨0, 0, [], some .errInvalidProtobufWireProtocolVersion⟩ := by decide
example : Srclient.decodeHeader [0, 0] = none := by decide

-- behaviour on the test vectors of deserializer_test.go
example :
    Srclient.resolveDescriptorByIndexes [0, 2, 1] Srclient.testFileDescriptor =
      .ok (.messageDescriptor (.node [])) := rfl
example :
    Srclient.resolveDescriptorByIndexes [1, 0] Srclient.testFileDescriptor =
      .ok (.messageDescriptor (.node [])) := rfl
example :
    Srclient.resolveDescriptorByIndexes [0, 5] Srclient.testFileDescriptor =
      .panic := rfl
example :
    Srclient.resolveDescriptorByIndexes [-1] Srclient.testFileDescriptor =
      .panic := rfl
example :
    Srclient.resolveDescriptorByIndexes [2] Srclient.testFileDescriptor =
      .goError .errTypeUndefinedInSchemaRegistry := rfl

/-! ## Claim theorems -/

lemma flatten_putVarint_length_le (P : List Int) :
    ((P.map putVarint).flatten).length ≤ P.length * MaxVarintLen64 := by
  induction P with
  | nil => simp
  | cons v es ih =>
    simp only [List.map_cons, List.flatten_cons, List.length_append,
      List.length_cons]
    have hv := putVarint_length_le v
    simp only [MaxVarintLen64] at hv ih ⊢
    omega

/-- C1: the spec claims `decodeHeader (encodePayloadHeader S [])` yields
the single-element path `[0]`.  The code instead yields the empty path:
the `if arrayLen == 0 { msgIndexes = append(msgIndexes, 0) }` assignment
is dead, because `msgIndexes = make([]int, arrayLen)` immediately
overwrites it with an empty slice.  Evaluated at the failing input
`S = 42`: the decoded record has `msgIndexes = []` (and no error), not
`[0]`. -/
theorem c1_decodeHeader_zero_length_path :
    decodeHeader (encodePayloadHeader 42 []) = some ⟨6, 42, [], none⟩ := by
  decide

/-- C2: the spec claims `resolveDescriptorByIndexes` fails with the
out-of-range/type-undefined error for an out-of-range index at any depth,
including negative indices, and never panics.  The code bounds-checks
only non-negative file-level indices: on the test-suite descriptor tree,
path `[0, 5]` (MessageA has only 3 nested messages) reaches the unchecked
`GetNestedMessageTypes()[5]` and panics, and `[-1]` reaches
`GetMessageTypes()[-1]` and panics, while the valid test vectors
`[0,2,1]`/`[1,0]` and the checked file-level overflow `[2]` behave as the
spec says. -/
theorem c2_resolveDescriptor_out_of_range_panics :
    resolveDescriptorByIndexes [0, 2, 1] testFileDescriptor
      = .ok (.messageDescriptor (.node []))
    ∧ resolveDescriptorByIndexes [2] testFileDescriptor
      = .goError .errTypeUndefinedInSchemaRegistry
    ∧ resolveDescriptorByIndexes [0, 5] testFileDescriptor = .panic
    ∧ resolveDescriptorByIndexes [-1] testFileDescriptor = .panic :=
  ⟨rfl, rfl, rfl, rfl⟩

/-- C3: the spec claims a header-decode error is returned unchanged by
`Deserialize`.  The code discards it: `decodeHeader`'s `err` is shadowed
by the next `:=` without being checked, so for input `[1]` (non-zero
first byte) `decodeHeader` produces
`ErrInvalidProtobufWireProtocolVersion` yet `Deserialize` proceeds to
resolve (with `schemaId = 0`, `msgIndexes = []`) and unmarshal, returning
success when the resolver and unmarshaller succeed. -/
theorem c3_deserialize_discards_decode_error :
    decodeHeader [1] = some ⟨0, 0, [],
      some .errInvalidProtobufWireProtocolVersion⟩
    ∧ Deserialize ⟨fun _ _ => .ok dummyMsg, fun _ m => .ok m⟩ (some [1])
      = .ok dummyMsg :=
  ⟨rfl, rfl⟩

/-- C4: for every schema id `S` (a value of the 4-byte wire field) and
every non-empty path `P` of non-negative in-range integers,
`decodeHeader (encodePayloadHeader S P)` returns exactly
`(bytesConsumed, S, P)` with no error, where `bytesConsumed` is the full
encoded-header length. -/
theorem c4_header_roundtrip (S : Nat) (P : List Int)
    (hS : S < 2 ^ 32) (_hne : P ≠ []) (hlen : P.length < 2 ^ 63)
    (hel : ∀ x ∈ P, 0 ≤ x ∧ x < 2 ^ 63) :
    decodeHeader (encodePayloadHeader (S : Int) P)
      = some ⟨(encodePayloadHeader (S : Int) P).length, S, P, none⟩ :=
  decodeHeader_encode S P hS hlen hel

/-- Witness for C4 at the spec's example: schema id 42, path [0,2,1];
the header is 9 bytes and decodes back exactly. -/
theorem c4_header_roundtrip_witness :
    decodeHeader (encodePayloadHeader (42 : Int) [0, 2, 1])
      = some ⟨9, 42, [0, 2, 1], none⟩ :=
  c4_header_roundtrip 42 [0, 2, 1] (by norm_num) (by simp) (by norm_num)
    (by decide)

/-- C5: `encodePayloadHeader` emits exactly the version byte 0, the four
big-endian bytes of `uint32(schemaId)`, the zigzag-varint path length and
the zigzag-varint path elements in order, and the bytes written always
fit in the conservatively allocated
`5 + (1+len(msgIndexes)) * MaxVarintLen64` buffer. -/
theorem c5_encodePayloadHeader_layout (schemaId : Int) (msgIndexes : List Int) :
    encodePayloadHeader schemaId msgIndexes
      = 0 :: (putUint32BE ((schemaId % (2 ^ 32 : Int)).toNat)
        ++ (putVarint ((msgIndexes.length : Int))
          ++ (msgIndexes.map putVarint).flatten))
    ∧ (encodePayloadHeader schemaId msgIndexes).length
        ≤ 5 + (1 + msgIndexes.length) * MaxVarintLen64 := by
  refine ⟨rfl, ?_⟩
  have h1 := putVarint_length_le ((msgIndexes.length : Int))
  have h2 := flatten_putVarint_length_le msgIndexes
  have hlen : (encodePayloadHeader schemaId msgIndexes).length
      = 5 + (putVarint ((msgIndexes.length : Int))).length
        + ((msgIndexes.map putVarint).flatten).length := by
    simp [encodePayloadHeader, putUint32BE]
    omega
  simp only [MaxVarintLen64] at h1 h2 ⊢
  omega

/-- C6: `computeMessageIndexes` returns, for a message addressed by a
sibling-index path in the file's message tree, exactly that path (entry k
is the message's positional index among its siblings at depth k); a
file-level message yields a single-element path. -/
theorem c6_computeMessageIndexes_spec (siblings : List MsgTree)
    (path : List Nat) (d : MsgDesc)
    (h : mkDesc none siblings path = some d) :
    computeMessageIndexes d 0 = path.map (fun i => (i : Int)) := by
  rw [computeMessageIndexes_eq_upPath d 0, mkDesc_upPath path none siblings d h]
  simp [optUpPath]

/-- Witness for C6: `MessageA` containing `MessageB` containing
`MessageC`, each first in its container, gives path [0,0,0]. -/
theorem c6_computeMessageIndexes_spec_witness :
    computeMessageIndexes (.mk (some (.mk (some (.mk none 0)) 0)) 0) 0
      = [0, 0, 0] :=
  c6_computeMessageIndexes_spec [.node [.node [.node []]]] [0, 0, 0] _ rfl

/-- C7: `Serialize` of Go `nil` returns `(nil, nil)`; `Serialize` of a
non-nil non-protobuf value fails with
`ErrNonProtobufSerializationTarget`; `Deserialize` of `nil` fails with
`ErrNothingToDeserialize`. -/
theorem c7_nil_handling (ps : SerializerCfg) (cache : HeaderCacheM)
    (topic : String) (pd : DeserializerCfg) :
    Serialize ps cache topic .goNil = (.ok none, cache)
    ∧ Serialize ps cache topic .nonProto
      = (.goError .errNonProtobufSerializationTarget, cache)
    ∧ Deserialize pd none = .goError .errNothingToDeserialize :=
  ⟨rfl, rfl, rfl⟩

/-- C8: the header cache never changes output: whenever `generateHeader`
succeeds with bytes `buf` leaving cache `cache'`, the cache holds `buf`
under `(schemaId, message full name)` and a repeated call returns the
byte-identical `buf` (from the cache) with the cache unchanged. -/
theorem c8_generateHeader_cache_consistent (ps : SerializerCfg)
    (cache : HeaderCacheM) (schemaId : Int) (msg : PMsg) (buf : List Nat)
    (cache' : HeaderCacheM)
    (h : generateHeader ps cache schemaId msg = (.ok buf, cache')) :
    headerCacheGet cache' schemaId msg.fullName = some buf
    ∧ generateHeader ps cache' schemaId msg = (.ok buf, cache') := by
  have hget : headerCacheGet cache' schemaId msg.fullName = some buf := by
    simp only [generateHeader] at h
    cases hg : headerCacheGet cache schemaId msg.fullName with
    | some hdr =>
      simp only [hg] at h
      simp only [Prod.mk.injEq, GoResult.ok.injEq] at h
      rw [← h.2, hg, h.1]
    | none =>
      simp only [hg] at h
      cases hr : ps.resolveProtoSchema schemaId with
      | error e => simp only [hr] at h; simp at h
      | ok fd =>
        simp only [hr] at h
        cases hres : resolveDescriptorByIndexes
            (computeMessageIndexes msg.descriptor 0) fd with
        | goError e => simp only [hres] at h; simp at h
        | panic => simp only [hres] at h; simp at h
        | ok dsc =>
          simp only [hres] at h
          simp only [Prod.mk.injEq, GoResult.ok.injEq] at h
          rw [← h.2, ← h.1]
          simp [headerCacheGet, headerCachePut]
  refine ⟨hget, ?_⟩
  simp only [generateHeader, hget]

/-- Witness for C8: a concrete serializer environment; the first call
misses and stores, the repeated call returns the identical bytes. -/
theorem c8_generateHeader_cache_consistent_witness :
    headerCacheGet c8cache 1 "test.M" = some c8hdr
    ∧ generateHeader c8ps c8cache 1 dummyMsg = (.ok c8hdr, c8cache) :=
  c8_generateHeader_cache_consistent c8ps emptyHeaderCache 1 dummyMsg
    c8hdr c8cache rfl

/-- C9: with caching enabled, a `GetSchema` cache hit returns the cached
schema with no HTTP request and no state change; a successful cache miss
issues exactly one request and stores the result in the id-cache; and
after `ResetCache` both caches are empty, so the next `GetSchema` issues
a fresh request. -/
theorem c9_getSchema_cache_behavior (o : SROracle) (c : SRClientState)
    (schemaID : Int) :
    (∀ s, c.cachingEnabled = true → c.idSchemaCache schemaID = some s →
      GetSchema o c schemaID = (.ok s, c, 0))
    ∧ (∀ sch c' n, c.cachingEnabled = true →
        c.idSchemaCache schemaID = none →
        GetSchema o c schemaID = (.ok sch, c', n) →
        n = 1 ∧ c'.idSchemaCache schemaID = some sch)
    ∧ ((ResetCache c).idSchemaCache schemaID = none
        ∧ (∀ subj, (ResetCache c).subjectSchemaCache subj = none)
        ∧ (GetSchema o (ResetCache c) schemaID).2.2 = 1) := by
  have hfetch : ∀ (c₀ : SRClientState), (getSchemaFetch o c₀ schemaID).2.2 = 1 := by
    intro c₀
    unfold getSchemaFetch
    split
    · rfl
    · split
      · rfl
      · split
        · rfl
        · rfl
  refine ⟨?_, ?_, ?_, ?_, ?_⟩
  · intro s h1 h2
    simp [GetSchema, h1, h2]
  · intro sch c' n h1 h2 hres
    simp only [GetSchema, h1, if_true, h2] at hres
    unfold getSchemaFetch at hres
    cases hf : o.fetchSchemaById schemaID with
    | error e => simp only [hf] at hres; simp at hres
    | ok resp =>
      simp only [hf] at hres
      cases hcod : (if c.codecCreationEnabled then
          (o.codecForSchema resp.schema).map some else .ok none) with
      | error e => simp only [hcod] at hres; simp at hres
      | ok codec =>
        simp only [hcod, h1, if_true] at hres
        simp only [Prod.mk.injEq, Except.ok.injEq] at hres
        obtain ⟨hsch, hc', hn⟩ := hres
        subst hsch
        subst hc'
        simp [hn]
  · simp [ResetCache]
  · intro subj
    simp [ResetCache]
  · by_cases hc : (ResetCache c).cachingEnabled
    · simp only [GetSchema, hc, if_true]
      have : (ResetCache c).idSchemaCache schemaID = none := by simp [ResetCache]
      rw [this]
      exact hfetch _
    · simp only [GetSchema, hc, if_false]
      exact hfetch _

/-- Witness for C9: the hit, miss-and-store and reset behaviours at
concrete states (schema id 7). -/
theorem c9_getSchema_cache_behavior_witness :
    GetSchema c9oracle c9hit 7 = (.ok c9schema, c9hit, 0)
    ∧ (1 = 1 ∧ ((GetSchema c9oracle c9miss 7).2.1).idSchemaCache 7
        = some ⟨7, "s", 3, none, none⟩)
    ∧ (ResetCache c9hit).idSchemaCache 7 = none := by
  refine ⟨?_, ?_, ?_⟩
  · exact (c9_getSchema_cache_behavior c9oracle c9hit 7).1 c9schema rfl rfl
  · exact (c9_getSchema_cache_behavior c9oracle c9miss 7).2.1
      ⟨7, "s", 3, none, none⟩ ((GetSchema c9oracle c9miss 7).2.1) 1 rfl rfl rfl
  · exact (c9_getSchema_cache_behavior c9oracle c9hit 7).2.2.1

/-- C10 counterexample: the claim says every non-nil input shorter than 5
bytes reaches an out-of-range access (`bytes[0]` and `bytes[1:5]`).  For
the 1-byte input `[1]` the version check fires first: `decodeHeader`
returns the `ErrInvalidProtobufWireProtocolVersion` error record — an
ordinary error return, not an out-of-range access. -/
theorem c10_short_nonzero_is_error_not_panic :
    decodeHeader [1] ≠ none
    ∧ decodeHeader [1]
      = some ⟨0, 0, [], some .errInvalidProtobufWireProtocolVersion⟩ := by
  exact ⟨by decide, rfl⟩

/-- C10 (amended): `Deserialize` guards only against nil input; for the
empty input and for every 1–4-byte input whose first byte is 0 the slice
access is out of the input's range (`bytes[0]`, resp. `bytes[1:5]`), so
`Deserialize` reaches the panic; a short input with non-zero first byte
instead returns the version error without any out-of-range access. -/
theorem c10_short_input_guard (bs : List Nat) (h : bs.length < 5) :
    ((bs = [] ∨ bs.head? = some 0) → decodeHeader bs = none
      ∧ ∀ pd : DeserializerCfg, Deserialize pd (some bs) = .panic)
    ∧ (∀ b, bs.head? = some b → b ≠ 0 →
        decodeHeader bs
          = some ⟨0, 0, [], some .errInvalidProtobufWireProtocolVersion⟩) := by
  constructor
  · intro hcase
    have hd : decodeHeader bs = none := by
      cases bs with
      | nil => rfl
      | cons b t =>
        rcases hcase with h0 | h0
        · exact absurd h0 (by simp)
        · have hb : b = 0 := by simpa using h0
          subst hb
          simp only [decodeHeader]
          rw [if_neg (by simp)]
          rw [if_pos (by simpa using h)]
    exact ⟨hd, fun pd => by simp only [Deserialize, hd]⟩
  · intro b hb hbne
    cases bs with
    | nil => simp at hb
    | cons b0 t =>
      have hb0 : b0 = b := by simpa using hb
      subst hb0
      simp only [decodeHeader]
      rw [if_pos hbne]

/-- Witness for C10 (amended) at the 2-byte input `[0,0]`: decode panics
and `Deserialize` propagates the panic. -/
theorem c10_short_input_guard_witness :
    decodeHeader [0, 0] = none
    ∧ Deserialize ⟨fun _ _ => .error .errMissingMessageTypeInSchema,
        fun _ m => .ok m⟩ (some [0, 0]) = .panic := by
  have h := (c10_short_input_guard [0, 0] (by norm_num)).1 (Or.inr rfl)
  exact ⟨h.1, h.2 _⟩

end Srclient
